import Mathlib

/-!
Verification of the CUDA LUT color-grading pipeline (`ffmpeg_lut.cu`).

Floating-point arithmetic in the kernel is modelled exactly over `ℚ`;
8-bit pixel channels are `ℕ` values in `[0,255]`; C `int` values are `ℤ`.
-/

namespace LutPipeline

/-- An RGB24 pixel: three 8-bit channels. -/
structure Pixel where
  r : ℕ
  g : ℕ
  b : ℕ
  deriving DecidableEq, Repr

/-- The CUDA `float3` vector, modelled over `ℚ`. -/
structure Q3 where
  x : ℚ
  y : ℚ
  z : ℚ
  deriving DecidableEq, Repr

/-- Device helper `lerp` (ffmpeg_lut.cu lines 41-45):
`make_float3(a.x + t*(b.x-a.x), a.y + t*(b.y-a.y), a.z + t*(b.z-a.z))`. -/
def lerp (a b : Q3) (t : ℚ) : Q3 :=
  ⟨a.x + t * (b.x - a.x), a.y + t * (b.y - a.y), a.z + t * (b.z - a.z)⟩

/-- Device helper `getLut` (lines 48-51): flattened index
`((rr*lutSize*lutSize) + (gg*lutSize) + bb) * 3`, then three consecutive reads. -/
def getLut (rr gg bb : ℤ) (d_lut : List ℚ) (lutSize : ℕ) : Q3 :=
  let index : ℤ := ((rr * lutSize * lutSize) + (gg * lutSize) + bb) * 3
  ⟨d_lut.getD index.toNat 0, d_lut.getD (index + 1).toNat 0, d_lut.getD (index + 2).toNat 0⟩

/-- The clamp-and-store of lines 100-102:
`static_cast<unsigned char>(fminf(fmaxf(v, 0.f), 255.f))`.  The cast truncates
toward zero, and the clamped value is nonnegative, so it is a floor. -/
def clampByte (v : ℚ) : ℕ := (⌊min (max v 0) 255⌋).toNat

/-- Lines 70-97 of `applyLUTKernel`: normalize the pixel, form the lattice
coordinate, floor / clamp the cell indices, fetch the 8 corners, and blend
along R, then G, then B. -/
def kernelInterp (p : Pixel) (d_lut : List ℚ) (lutSize : ℕ) : Q3 :=
  let r : ℚ := (p.r : ℚ) / 255
  let g : ℚ := (p.g : ℚ) / 255
  let b : ℚ := (p.b : ℚ) / 255
  let fr : ℚ := r * ((lutSize : ℚ) - 1)
  let fg : ℚ := g * ((lutSize : ℚ) - 1)
  let fb : ℚ := b * ((lutSize : ℚ) - 1)
  let r0 : ℤ := ⌊fr⌋
  let g0 : ℤ := ⌊fg⌋
  let b0 : ℤ := ⌊fb⌋
  let r1 : ℤ := min (r0 + 1) ((lutSize : ℤ) - 1)
  let g1 : ℤ := min (g0 + 1) ((lutSize : ℤ) - 1)
  let b1 : ℤ := min (b0 + 1) ((lutSize : ℤ) - 1)
  let dr : ℚ := fr - r0
  let dg : ℚ := fg - g0
  let db : ℚ := fb - b0
  let c000 := getLut r0 g0 b0 d_lut lutSize
  let c100 := getLut r1 g0 b0 d_lut lutSize
  let c010 := getLut r0 g1 b0 d_lut lutSize
  let c001 := getLut r0 g0 b1 d_lut lutSize
  let c101 := getLut r1 g0 b1 d_lut lutSize
  let c011 := getLut r0 g1 b1 d_lut lutSize
  let c110 := getLut r1 g1 b0 d_lut lutSize
  let c111 := getLut r1 g1 b1 d_lut lutSize
  let c00 := lerp c000 c100 dr
  let c01 := lerp c001 c101 dr
  let c10 := lerp c010 c110 dr
  let c11 := lerp c011 c111 dr
  let c0 := lerp c00 c10 dg
  let c1 := lerp c01 c11 dg
  lerp c0 c1 db

/-- The body of `applyLUTKernel` for one in-bounds thread (lines 64-102):
the pure-white fast path, otherwise trilinear interpolation followed by
the clamped store of each channel. -/
def applyLUTPixel (p : Pixel) (d_lut : List ℚ) (lutSize : ℕ) : Pixel :=
  if p.r = 255 ∧ p.g = 255 ∧ p.b = 255 then ⟨255, 255, 255⟩
  else
    let c := kernelInterp p d_lut lutSize
    ⟨clampByte (c.x * 255 + 1/2), clampByte (c.y * 255 + 1/2), clampByte (c.z * 255 + 1/2)⟩

/-! ### Reference (specification-worded) trilinear transform, for the refinement claim -/

/-- Spec wording: the blend `A + t·(B−A)`, applied componentwise. -/
def specBlend (a b : Q3) (t : ℚ) : Q3 :=
  ⟨a.x + t * (b.x - a.x), a.y + t * (b.y - a.y), a.z + t * (b.z - a.z)⟩

/-- Spec wording: the triple for lattice coordinate (r,g,b) lives at flattened
offset `((r·N + g)·N + b)·3`; a corner fetch reads the three floats there. -/
def specFetch (lut : List ℚ) (N : ℕ) (r g b : ℤ) : Q3 :=
  let off : ℤ := ((r * N + g) * N + b) * 3
  ⟨lut.getD off.toNat 0, lut.getD (off + 1).toNat 0, lut.getD (off + 2).toNat 0⟩

/-- Truncation toward zero of a rational (the C float-to-integer cast used by
the spec's wording "incremented by 0.5, truncated"). -/
def specTrunc (q : ℚ) : ℤ := if q < 0 then -⌊-q⌋ else ⌊q⌋

/-- Spec wording: output channel = interpolated value multiplied by 255,
incremented by 0.5, truncated, then clamped into [0,255]. -/
def specOutByte (c : ℚ) : ℕ := (min (max (specTrunc (c * 255 + 1/2)) 0) 255).toNat

/-- The reference trilinear interpolation exactly as the specification words it:
divide each 8-bit channel by 255, multiply by (N-1), floor for the lower index,
`min(lower+1, N-1)` for the upper index, fetch the 8 corners, blend along R
(4 blends), then G (2 blends), then B (1 blend), then write back each channel. -/
def specTrilinear (p : Pixel) (lut : List ℚ) (N : ℕ) : Pixel :=
  let r : ℚ := (p.r : ℚ) / 255
  let g : ℚ := (p.g : ℚ) / 255
  let b : ℚ := (p.b : ℚ) / 255
  let fr : ℚ := r * ((N : ℚ) - 1)
  let fg : ℚ := g * ((N : ℚ) - 1)
  let fb : ℚ := b * ((N : ℚ) - 1)
  let r0 : ℤ := ⌊fr⌋
  let g0 : ℤ := ⌊fg⌋
  let b0 : ℤ := ⌊fb⌋
  let r1 : ℤ := min (r0 + 1) ((N : ℤ) - 1)
  let g1 : ℤ := min (g0 + 1) ((N : ℤ) - 1)
  let b1 : ℤ := min (b0 + 1) ((N : ℤ) - 1)
  let dr : ℚ := fr - r0
  let dg : ℚ := fg - g0
  let db : ℚ := fb - b0
  let c000 := specFetch lut N r0 g0 b0
  let c100 := specFetch lut N r1 g0 b0
  let c010 := specFetch lut N r0 g1 b0
  let c001 := specFetch lut N r0 g0 b1
  let c101 := specFetch lut N r1 g0 b1
  let c011 := specFetch lut N r0 g1 b1
  let c110 := specFetch lut N r1 g1 b0
  let c111 := specFetch lut N r1 g1 b1
  let c00 := specBlend c000 c100 dr
  let c01 := specBlend c001 c101 dr
  let c10 := specBlend c010 c110 dr
  let c11 := specBlend c011 c111 dr
  let c0 := specBlend c00 c10 dg
  let c1 := specBlend c01 c11 dg
  let c := specBlend c0 c1 db
  ⟨specOutByte c.x, specOutByte c.y, specOutByte c.z⟩

/-! ### The eight corner index triples fetched by the kernel (for the bounds claim) -/

/-- The flattened LUT offset used by `getLut` (line 49). -/
def flatOffset (N : ℕ) (c : ℤ × ℤ × ℤ) : ℤ :=
  ((c.1 * N * N) + (c.2.1 * N) + c.2.2) * 3

/-- The eight (r,g,b) axis-index triples at which lines 82-89 call `getLut`,
in source order. -/
def kernelCorners (p : Pixel) (lutSize : ℕ) : List (ℤ × ℤ × ℤ) :=
  let fr : ℚ := ((p.r : ℚ) / 255) * ((lutSize : ℚ) - 1)
  let fg : ℚ := ((p.g : ℚ) / 255) * ((lutSize : ℚ) - 1)
  let fb : ℚ := ((p.b : ℚ) / 255) * ((lutSize : ℚ) - 1)
  let r0 : ℤ := ⌊fr⌋
  let g0 : ℤ := ⌊fg⌋
  let b0 : ℤ := ⌊fb⌋
  let r1 : ℤ := min (r0 + 1) ((lutSize : ℤ) - 1)
  let g1 : ℤ := min (g0 + 1) ((lutSize : ℤ) - 1)
  let b1 : ℤ := min (b0 + 1) ((lutSize : ℤ) - 1)
  [(r0, g0, b0), (r1, g0, b0), (r0, g1, b0), (r0, g0, b1),
   (r1, g0, b1), (r0, g1, b1), (r1, g1, b0), (r1, g1, b1)]

/-! ### The identity LUT of the spec's identity-LUT property -/

/-- Entry `t` of the flattened identity LUT: lattice point (r,g,b) maps to
`(r/(N-1), g/(N-1), b/(N-1))`, laid out by the index law `((r·N+g)·N+b)·3`. -/
def idEntry (N t : ℕ) : ℚ :=
  let m := t / 3
  let ch := t % 3
  let rr := m / (N * N)
  let gg := m / N % N
  let bb := m % N
  (if ch = 0 then (rr : ℚ) else if ch = 1 then (gg : ℚ) else (bb : ℚ)) / ((N : ℚ) - 1)

/-- The identity LUT cube of size N: every lattice entry (r,g,b) maps to
(r,g,b) itself scaled to the LUT's own size. -/
def identityLUT (N : ℕ) : List ℚ := (List.range (3 * N ^ 3)).map (idEntry N)

/-! ### LUT file parsing (`loadLUT`, lines 112-146)

A text line is modelled by the distinctions `loadLUT` actually makes: the
`line.empty()` test, the `line[0] == '#'` test, and the whitespace-separated
tokens that `istringstream` extraction yields.  Each token carries its raw
text together with the result of C++ stream extraction as an `int`
(`iss >> lut.size`) and as a `float` (`iss >> r`), the latter modelled
exactly over `ℚ`; stream extraction itself is standard-library behaviour,
not repository code. -/

/-- One whitespace-delimited token of a LUT file line, with the results of
C++ stream extraction on it. -/
structure Tok where
  text : String
  asInt : Option ℤ
  asFloat : Option ℚ
  deriving DecidableEq, Repr

/-- One line of a LUT file. -/
structure RawLine where
  isBlank : Bool
  isComment : Bool
  toks : List Tok
  deriving DecidableEq, Repr

/-- The skip test of lines 119 and 134: `line.empty() || line[0] == '#'`. -/
def skipLine (l : RawLine) : Bool := l.isBlank || l.isComment

/-- The parsed LUT (struct `LUT3D`, lines 106-109): `int size` and the
flattened float data. -/
structure LUT3D where
  size : ℤ
  data : List ℚ
  deriving DecidableEq, Repr

/-- Error message of line 125. -/
def msgBadSize : String := "Invalid LUT size in header."

/-- Error message of line 130. -/
def msgNoSize : String := "LUT size not specified in LUT file."

/-- Error message of line 144. -/
def msgCount : String := "LUT file does not contain the expected number of entries."

/-- The header-search loop of lines 118-130: skip blank/comment lines, read the
first token of each remaining line, and on `LUT_3D_SIZE` extract the size
(failing extraction or a nonpositive size is fatal) and stop; any other line is
discarded and the search continues.  Falling off the end of the file is the
missing-size error of line 130. -/
def findHeader : List RawLine → Except String (ℤ × List RawLine)
  | [] => .error msgNoSize
  | l :: rest =>
    if skipLine l then findHeader rest
    else
      match l.toks with
      | [] => findHeader rest
      | t :: ts =>
        if t.text = "LUT_3D_SIZE" then
          match ts with
          | [] => .error msgBadSize
          | st :: _ =>
            match st.asInt with
            | none => .error msgBadSize
            | some k => if k ≤ 0 then .error msgBadSize else .ok (k, rest)
        else findHeader rest

/-- The per-line data parse of lines 135-138: `iss >> r >> g >> b` succeeds
exactly when the line has at least three tokens whose float extraction all
succeed. -/
def lineTriple : RawLine → Option (ℚ × ℚ × ℚ)
  | l =>
    match l.toks with
    | a :: b :: c :: _ =>
      match a.asFloat, b.asFloat, c.asFloat with
      | some r, some g, some b2 => some (r, g, b2)
      | _, _, _ => none
    | _ => none

/-- The data loop of lines 133-142: skip blank/comment lines, skip lines that
fail to parse as three floats, and append each successful triple. -/
def readData : List RawLine → List ℚ
  | [] => []
  | l :: rest =>
    if skipLine l then readData rest
    else
      match lineTriple l with
      | some (r, g, b) => r :: g :: b :: readData rest
      | none => readData rest

/-- `loadLUT` (lines 112-146): find the size header, read the data section, and
fail unless the entry count equals `size·size·size·3` (line 131 and 143-144). -/
def loadLUT (lines : List RawLine) : Except String LUT3D :=
  match findHeader lines with
  | .error e => .error e
  | .ok (n, rest) =>
    if ((readData rest).length : ℤ) = n * n * n * 3 then .ok ⟨n, readData rest⟩
    else .error msgCount

/-- A line that the header-search loop consumes without stopping: blank,
comment, or whose first token (if any) is not `LUT_3D_SIZE`. -/
def headerSkips (l : RawLine) : Bool :=
  skipLine l ||
    match l.toks with
    | [] => true
    | t :: _ => t.text ≠ "LUT_3D_SIZE"

/-- A line that the header-search loop accepts as a valid size-`n` header. -/
def validHeader (l : RawLine) (n : ℤ) : Prop :=
  skipLine l = false ∧ 0 < n ∧
    ∃ t st ts, l.toks = t :: st :: ts ∧ t.text = "LUT_3D_SIZE" ∧ st.asInt = some n

/-! ### The main processing loop's per-unit error policy (lines 350-462) -/

/-- One result of `avcodec_receive_frame` in the inner drain loop:
a decoded frame (whose subsequent per-frame processing may fail),
`AVERROR(EAGAIN)`, `AVERROR_EOF`, or any other negative result. -/
inductive RecvRes where
  | frame (procFail : Bool)
  | again
  | eofR
  | err
  deriving DecidableEq, Repr

/-- One packet returned by `av_read_frame`: its stream test, whether
`avcodec_send_packet` fails on it, and the successive decoder results. -/
structure InPacket where
  isVideo : Bool
  sendFails : Bool
  recvs : List RecvRes
  deriving DecidableEq, Repr

/-- Observable events of the main processing loop. -/
inductive LoopEvent where
  | packetRead
  | frameProcessed
  | frameAbandoned
  | decodeErrorLogged
  | sendErrorLogged
  deriving DecidableEq, Repr

/-- The inner drain loop (lines 359-459): `EAGAIN`/`EOF` end it silently; any
other negative receive result logs and ends it; a decoded frame whose
processing fails logs, abandons the frame, and ends it; a successfully
processed frame lets it continue. -/
def drainFrames : List RecvRes → List LoopEvent
  | [] => []
  | r :: rest =>
    match r with
    | .again => []
    | .eofR => []
    | .err => [.decodeErrorLogged]
    | .frame procFail =>
      if procFail then [.frameAbandoned] else .frameProcessed :: drainFrames rest

/-- The outer read loop (lines 352-462): non-video packets are discarded;
a failed `avcodec_send_packet` logs and `break`s out of the whole read loop
(lines 355-358); otherwise the inner drain loop runs and the next packet is
read. -/
def mainLoop : List InPacket → List LoopEvent
  | [] => []
  | p :: rest =>
    .packetRead ::
      (if p.isVideo then
        if p.sendFails then [.sendErrorLogged]
        else drainFrames p.recvs ++ mainLoop rest
      else mainLoop rest)

/-! ### Timestamp handling (lines 414-416 and 443-446) -/

/-- `av_rescale_q(a, bq, cq)`: `a·bq/cq` rounded to the nearest integer with
halves away from zero (FFmpeg `AV_ROUND_NEAR_INF`). -/
def avRescaleQ (a : ℤ) (bq cq : ℚ) : ℤ :=
  let q : ℚ := (a : ℚ) * bq / cq
  if q < 0 then -⌊-q + 1/2⌋ else ⌊q + 1/2⌋

/-- The fields of the frame handed to `avcodec_send_frame` that lines 415-416
set: the rescaled presentation timestamp and the decode timestamp
(`AV_NOPTS_VALUE` modelled as `none`). -/
structure EncFrame where
  pts : ℤ
  pkt_dts : Option ℤ
  deriving DecidableEq, Repr

/-- Lines 415-416: the frame's pts is rescaled from the input video stream's
timebase to the encoder's timebase, and its decode timestamp is set unset. -/
def prepEncFrame (decFramePts : ℤ) (streamTB encTB : ℚ) : EncFrame :=
  ⟨avRescaleQ decFramePts streamTB encTB, none⟩

/-- An encoded packet's timestamp fields and stream index. -/
structure OutPacket where
  pts : Option ℤ
  dts : Option ℤ
  streamIndex : ℕ
  deriving DecidableEq, Repr

/-- FFmpeg `av_packet_rescale_ts`: rescales the packet's pts and dts from
timebase `src` to timebase `dst`, leaving `AV_NOPTS_VALUE` fields unset. -/
def avPacketRescaleTs (p : OutPacket) (src dst : ℚ) : OutPacket :=
  ⟨p.pts.map (fun t => avRescaleQ t src dst),
   p.dts.map (fun t => avRescaleQ t src dst),
   p.streamIndex⟩

/-- Lines 445-446: before muxing, a packet received from the encoder gets the
output stream's index and its timestamps rescaled from the encoder's timebase
to the output stream's timebase. -/
def prepOutPacket (p : OutPacket) (encTB outTB : ℚ) (outIdx : ℕ) : OutPacket :=
  avPacketRescaleTs ⟨p.pts, p.dts, outIdx⟩ encTB outTB

/-- The per-frame encode-and-mux dataflow of the main loop, with the encoder
(an external codec) as an oracle from the prepared frame to its emitted
packets: prepare the frame (lines 414-418), send it, then rescale and mux
every packet the encoder emits (lines 435-455). -/
def encodeFrameStep (decFramePts : ℤ) (streamTB encTB outTB : ℚ) (outIdx : ℕ)
    (encoder : EncFrame → List OutPacket) : List OutPacket :=
  (encoder (prepEncFrame decFramePts streamTB encTB)).map
    (fun p => prepOutPacket p encTB outTB outIdx)

/-! ### Resource acquisition/release trace of `main` (lines 148-675) -/

/-- The resources `main` acquires. -/
inductive Res where
  | dLut
  | inFmt
  | decCtx
  | swsToRGB
  | outFmt
  | encCtx
  | outFile
  | swsFromRGB
  | decFrame
  | rgbFrame
  | encFrame
  | dInput
  | dOutput
  | packet
  deriving DecidableEq, Repr

/-- Events of a run of `main`: acquiring a resource, releasing it, and
process termination. -/
inductive Ev where
  | acq (r : Res)
  | rel (r : Res)
  | exitFail
  | exitOk
  deriving DecidableEq, Repr

/-- Acquisition order of `main` (lines 180, 184, 209, 220, 229, 245, 301,
308, 317-319, 341, 342, 344). -/
def acqOrder : List Res :=
  [.dLut, .inFmt, .decCtx, .swsToRGB, .outFmt, .encCtx, .outFile, .swsFromRGB,
   .decFrame, .rgbFrame, .encFrame, .dInput, .dOutput, .packet]

/-- Release order of the cleanup block (lines 603-671), in source order. -/
def relOrder : List Res :=
  [.outFile, .dInput, .dOutput, .dLut, .swsToRGB, .swsFromRGB, .decFrame,
   .rgbFrame, .encFrame, .packet, .decCtx, .encCtx, .inFmt, .outFmt]

/-- The resource trace of `main`, parameterised by which fallible step (in
program order) fails first, if any.  Early failures are the early `return
EXIT_FAILURE` statements and the `exit` calls of `CUDA_CHECK`/`AV_CHECK`;
none of them runs the cleanup block.  Steps: 0 `loadLUT` throws (174); 1
`cudaMalloc` LUT (180); 2 `cudaMemcpy` LUT (181); 3 `avformat_open_input`
(184); 4 `avformat_find_stream_info` (186); 5 no video stream (197); 6 no
decoder (205); 7 decoder ctx alloc (210); 8 `avcodec_parameters_to_context`
(214); 9 decoder `avcodec_open2` (216); 10 `sws_getContext` to RGB (223); 11
output ctx alloc (230); 12 no encoder (235); 13 new stream (240); 14 encoder
ctx alloc (246); 15 encoder `avcodec_open2` (289); 16
`avcodec_parameters_from_context` (294); 17 `avio_open` (301); 18
`avformat_write_header` (304); 19 `sws_getContext` from RGB (311); 20 frame
allocs (320); 21 rgb `av_frame_get_buffer` (329); 22 enc
`av_frame_get_buffer` (336); 23 `cudaMalloc` input (341); 24 `cudaMalloc`
output (342); 25 packet alloc (345); 26 a `CUDA_CHECK` inside the processing
loop (382/386/387). -/
def mainTrace (failAt : Option ℕ) : List Ev :=
  let f : ℕ → Bool := fun k => failAt = some k
  if f 0 then [.exitFail] else
  if f 1 then [.exitFail] else
  .acq .dLut ::
  (if f 2 then [.exitFail] else
   if f 3 then [.exitFail] else
   .acq .inFmt ::
   (if f 4 then [.exitFail] else
    if f 5 then [.exitFail] else
    if f 6 then [.exitFail] else
    if f 7 then [.exitFail] else
    .acq .decCtx ::
    (if f 8 then [.exitFail] else
     if f 9 then [.exitFail] else
     if f 10 then [.exitFail] else
     .acq .swsToRGB ::
     (if f 11 then [.exitFail] else
      .acq .outFmt ::
      (if f 12 then [.exitFail] else
       if f 13 then [.exitFail] else
       if f 14 then [.exitFail] else
       .acq .encCtx ::
       (if f 15 then [.exitFail] else
        if f 16 then [.exitFail] else
        if f 17 then [.exitFail] else
        .acq .outFile ::
        (if f 18 then [.exitFail] else
         if f 19 then [.exitFail] else
         .acq .swsFromRGB ::
         (if f 20 then [.exitFail] else
          .acq .decFrame :: .acq .rgbFrame :: .acq .encFrame ::
          (if f 21 then [.exitFail] else
           if f 22 then [.exitFail] else
           if f 23 then [.exitFail] else
           .acq .dInput ::
           (if f 24 then [.exitFail] else
            .acq .dOutput ::
            (if f 25 then [.exitFail] else
             .acq .packet ::
             (if f 26 then [.exitFail] else
              relOrder.map Ev.rel ++ [.exitOk]))))))))))))

/-- The resources acquired along a trace, in order. -/
def acqsOf (t : List Ev) : List Res :=
  t.filterMap fun e => match e with | .acq r => some r | _ => none

/-- The resources released along a trace, in order. -/
def relsOf (t : List Ev) : List Res :=
  t.filterMap fun e => match e with | .rel r => some r | _ => none

/-! ### Device memory writes of one kernel launch (lines 56-103, 383-385) -/

/-- The three device buffers the kernel can address. -/
inductive BufId where
  | inputB
  | outputB
  | lutB
  deriving DecidableEq, Repr

/-- One store performed by a kernel thread. -/
structure KWrite where
  buf : BufId
  addr : ℕ
  val : ℕ
  deriving DecidableEq, Repr

/-- The stores performed by the thread at coordinate (x,y): nothing when the
thread is outside `width × height` (line 60), otherwise exactly the three
output-buffer bytes of its pixel (lines 66 and 100-102). -/
def threadWrites (input : ℕ → ℕ) (width height : ℕ) (d_lut : List ℚ)
    (lutSize : ℕ) (x y : ℕ) : List KWrite :=
  if width ≤ x ∨ height ≤ y then []
  else
    let idx := (y * width + x) * 3
    let q := applyLUTPixel ⟨input idx, input (idx + 1), input (idx + 2)⟩ d_lut lutSize
    [⟨.outputB, idx, q.r⟩, ⟨.outputB, idx + 1, q.g⟩, ⟨.outputB, idx + 2, q.b⟩]

/-- The device memory visible to one kernel launch. -/
structure DevMem where
  input : ℕ → ℕ
  output : ℕ → ℕ
  lut : List ℚ

/-- Apply one store to device memory. -/
def applyWrite (m : DevMem) (w : KWrite) : DevMem :=
  match w.buf with
  | .inputB => { m with input := Function.update m.input w.addr w.val }
  | .outputB => { m with output := Function.update m.output w.addr w.val }
  | .lutB => { m with lut := m.lut.set w.addr (w.val : ℚ) }

/-- All thread coordinates of the launch grid: `dim3 block(16,16)` with
`grid((width+15)/16, (height+15)/16)` (lines 383-384), so coordinates range
over the 16-padded rectangle. -/
def gridThreads (width height : ℕ) : List (ℕ × ℕ) :=
  (List.range ((width + 15) / 16 * 16)).flatMap fun x =>
    (List.range ((height + 15) / 16 * 16)).map fun y => (x, y)

/-- One transform call: every grid thread's stores applied to device memory. -/
def runKernel (m : DevMem) (width height lutSize : ℕ) : DevMem :=
  ((gridThreads width height).flatMap fun xy =>
      threadWrites m.input width height m.lut lutSize xy.1 xy.2).foldl applyWrite m

/-- A concrete `LUT_3D_SIZE 2` header line for concrete test files. -/
def witHeaderLine : RawLine :=
  ⟨false, false, [⟨"LUT_3D_SIZE", none, none⟩, ⟨"2", some 2, some 2⟩]⟩

/-- A concrete data line holding three parsable floats. -/
def witDataLine : RawLine :=
  ⟨false, false, [⟨"0.25", none, some (1/4)⟩, ⟨"0.5", none, some (1/2)⟩,
    ⟨"1.0", none, some 1⟩]⟩

/-- A concrete file declaring size 2 but supplying only 7 triples (21 floats
instead of the expected 24). -/
def witBadFile : List RawLine := witHeaderLine :: List.replicate 7 witDataLine

/-- A concrete file with 2 data lines before the header and 8 after it. -/
def witLateHeaderFile : List RawLine :=
  List.replicate 2 witDataLine ++ witHeaderLine :: List.replicate 8 witDataLine

/-! ## Theorems -/

/-- Claim C1: for every LUT cube and every source pixel that is exactly
(255,255,255), the kernel writes exactly (255,255,255), bypassing the LUT
entirely (lines 64-68), whatever the LUT's contents map white to. -/
theorem white_passthrough (lut : List ℚ) (N : ℕ) :
    applyLUTPixel ⟨255, 255, 255⟩ lut N = ⟨255, 255, 255⟩ := by
  unfold applyLUTPixel
  simp

theorem lerp_eq_specBlend (a b : Q3) (t : ℚ) : lerp a b t = specBlend a b t := rfl

theorem getLut_eq_specFetch (rr gg bb : ℤ) (lut : List ℚ) (N : ℕ) :
    getLut rr gg bb lut N = specFetch lut N rr gg bb := by
  simp only [getLut, specFetch]
  have h : rr * (N : ℤ) * N + gg * N + bb = (rr * N + gg) * N + bb := by ring
  rw [h]

theorem floor_clamp_eq_trunc_clamp (v : ℚ) :
    (⌊min (max v 0) 255⌋).toNat = (min (max (specTrunc v) 0) 255).toNat := by
  rcases le_or_lt 0 v with h0 | h0
  · have htr : specTrunc v = ⌊v⌋ := if_neg (not_lt.mpr h0)
    have hfl0 : (0 : ℤ) ≤ ⌊v⌋ := Int.floor_nonneg.mpr h0
    rw [max_eq_left h0, htr, max_eq_left hfl0]
    rcases le_total v 255 with h255 | h255
    · have : ⌊v⌋ ≤ ⌊(255 : ℚ)⌋ := Int.floor_le_floor h255
      have h255' : ⌊v⌋ ≤ (255 : ℤ) := by norm_num at this; exact this
      rw [min_eq_left h255, min_eq_left h255']
    · have h255' : (255 : ℤ) ≤ ⌊v⌋ := Int.le_floor.mpr (by exact_mod_cast h255)
      rw [min_eq_right h255, min_eq_right h255']
      norm_num
  · have h1 : specTrunc v = -⌊-v⌋ := if_pos h0
    have h2 : (0 : ℤ) ≤ ⌊-v⌋ := Int.floor_nonneg.mpr (by linarith)
    have h3 : specTrunc v ≤ 0 := by rw [h1]; omega
    rw [max_eq_right (le_of_lt h0), max_eq_right h3]
    norm_num

theorem clampByte_eq_specOutByte (c : ℚ) : clampByte (c * 255 + 1/2) = specOutByte c :=
  floor_clamp_eq_trunc_clamp (c * 255 + 1/2)

/-- Claim C2: for every LUT cube and every non-white source pixel, the kernel's
output equals the reference trilinear interpolation exactly as the
specification words it (normalize, scale by N-1, floor / clamped upper index,
8 corner fetches at the stated flattened offsets, blends along R then G then
B, and the rounded, clamped writeback). -/
theorem kernel_eq_spec_trilinear (p : Pixel) (lut : List ℚ) (N : ℕ)
    (hN : 0 < N) (hw : ¬(p.r = 255 ∧ p.g = 255 ∧ p.b = 255)) :
    applyLUTPixel p lut N = specTrilinear p lut N := by
  unfold applyLUTPixel specTrilinear
  rw [if_neg hw]
  simp only [kernelInterp, getLut_eq_specFetch, lerp_eq_specBlend, clampByte_eq_specOutByte]

/-- Witness for C2 at a concrete non-white pixel and LUT. -/
theorem kernel_eq_spec_trilinear_witness :
    (0 < 2 ∧ ¬((10 : ℕ) = 255 ∧ (20 : ℕ) = 255 ∧ (30 : ℕ) = 255)) ∧
      applyLUTPixel ⟨10, 20, 30⟩ (List.replicate 24 ((1 : ℚ)/2)) 2 =
        specTrilinear ⟨10, 20, 30⟩ (List.replicate 24 ((1 : ℚ)/2)) 2 ∧
      applyLUTPixel ⟨10, 20, 30⟩ (List.replicate 24 ((1 : ℚ)/2)) 2 = ⟨128, 128, 128⟩ :=
  ⟨⟨by decide, by decide⟩,
    kernel_eq_spec_trilinear ⟨10, 20, 30⟩ (List.replicate 24 ((1 : ℚ)/2)) 2
      (by decide) (by decide),
    by
      norm_num [applyLUTPixel, kernelInterp, getLut, lerp, clampByte, List.getD]
      decide⟩

theorem floorCoord_bounds (v N : ℕ) (hN : 0 < N) (hv : v ≤ 255) :
    0 ≤ ⌊((v : ℚ) / 255) * ((N : ℚ) - 1)⌋ ∧
      ⌊((v : ℚ) / 255) * ((N : ℚ) - 1)⌋ ≤ (N : ℤ) - 1 := by
  have hN1 : (1 : ℚ) ≤ (N : ℚ) := by exact_mod_cast hN
  have h1 : (0 : ℚ) ≤ (N : ℚ) - 1 := by linarith
  have h2 : (0 : ℚ) ≤ (v : ℚ) / 255 := by positivity
  refine ⟨Int.floor_nonneg.mpr (mul_nonneg h2 h1), ?_⟩
  have hd1 : (v : ℚ) / 255 ≤ 1 := by
    rw [div_le_one (by norm_num : (0:ℚ) < 255)]
    exact_mod_cast hv
  have hle : (v : ℚ) / 255 * ((N : ℚ) - 1) ≤ (((N : ℤ) - 1 : ℤ) : ℚ) := by
    push_cast
    nlinarith
  calc ⌊((v : ℚ) / 255) * ((N : ℚ) - 1)⌋ ≤ ⌊(((N : ℤ) - 1 : ℤ) : ℚ)⌋ :=
        Int.floor_le_floor hle
    _ = (N : ℤ) - 1 := Int.floor_intCast _

theorem flatOffset_bounds (N : ℕ) (t : ℤ × ℤ × ℤ) (hN : 0 < N)
    (ha : 0 ≤ t.1 ∧ t.1 ≤ (N : ℤ) - 1) (hb : 0 ≤ t.2.1 ∧ t.2.1 ≤ (N : ℤ) - 1)
    (hc : 0 ≤ t.2.2 ∧ t.2.2 ≤ (N : ℤ) - 1) :
    0 ≤ flatOffset N t ∧ flatOffset N t + 2 < 3 * (N : ℤ) ^ 3 := by
  obtain ⟨a, b, c⟩ := t
  obtain ⟨ha0, ha1⟩ := ha
  obtain ⟨hb0, hb1⟩ := hb
  obtain ⟨hc0, hc1⟩ := hc
  simp only [flatOffset] at *
  have hN' : (1 : ℤ) ≤ (N : ℤ) := by exact_mod_cast hN
  have hNn : (0 : ℤ) ≤ (N : ℤ) := by linarith
  constructor
  · have h1 : (0 : ℤ) ≤ a * N * N := mul_nonneg (mul_nonneg ha0 hNn) hNn
    have h2 : (0 : ℤ) ≤ b * N := mul_nonneg hb0 hNn
    linarith
  · have k1 : a * (N : ℤ) * N ≤ ((N : ℤ) - 1) * N * N :=
      mul_le_mul_of_nonneg_right (mul_le_mul_of_nonneg_right ha1 hNn) hNn
    have k2 : b * (N : ℤ) ≤ ((N : ℤ) - 1) * N := mul_le_mul_of_nonneg_right hb1 hNn
    have k3 : ((N : ℤ) - 1) * N * N + ((N : ℤ) - 1) * N + ((N : ℤ) - 1) =
        (N : ℤ) ^ 3 - 1 := by ring
    linarith

theorem cornerOK (N : ℕ) (hN : 0 < N) (a b c : ℤ)
    (ha : 0 ≤ a ∧ a ≤ (N : ℤ) - 1) (hb : 0 ≤ b ∧ b ≤ (N : ℤ) - 1)
    (hc : 0 ≤ c ∧ c ≤ (N : ℤ) - 1) :
    (0 ≤ (a, b, c).1 ∧ (a, b, c).1 ≤ (N : ℤ) - 1) ∧
      (0 ≤ (a, b, c).2.1 ∧ (a, b, c).2.1 ≤ (N : ℤ) - 1) ∧
      (0 ≤ (a, b, c).2.2 ∧ (a, b, c).2.2 ≤ (N : ℤ) - 1) ∧
      0 ≤ flatOffset N (a, b, c) ∧ flatOffset N (a, b, c) + 2 < 3 * (N : ℤ) ^ 3 :=
  ⟨ha, hb, hc, (flatOffset_bounds N (a, b, c) hN ha hb hc).1,
    (flatOffset_bounds N (a, b, c) hN ha hb hc).2⟩

/-- Claim C3: for every LUT size N > 0 and every non-white source pixel
(including pixels with a channel exactly 255), each of the eight corner fetches
of the kernel uses axis indices within [0, N-1] — the upper neighbour is
clamped to N-1 independently per axis, with no wraparound — and the flattened
offset stays within the 3·N³-element cube. -/
theorem kernelCorners_in_bounds (p : Pixel) (N : ℕ) (hN : 0 < N)
    (hr : p.r ≤ 255) (hg : p.g ≤ 255) (hb : p.b ≤ 255)
    (hw : ¬(p.r = 255 ∧ p.g = 255 ∧ p.b = 255)) :
    ∀ c ∈ kernelCorners p N,
      (0 ≤ c.1 ∧ c.1 ≤ (N : ℤ) - 1) ∧
        (0 ≤ c.2.1 ∧ c.2.1 ≤ (N : ℤ) - 1) ∧
        (0 ≤ c.2.2 ∧ c.2.2 ≤ (N : ℤ) - 1) ∧
        0 ≤ flatOffset N c ∧ flatOffset N c + 2 < 3 * (N : ℤ) ^ 3 := by
  intro c hc
  have hN' : (1 : ℤ) ≤ (N : ℤ) := by exact_mod_cast hN
  obtain ⟨hr0, hr1⟩ := floorCoord_bounds p.r N hN hr
  obtain ⟨hg0, hg1⟩ := floorCoord_bounds p.g N hN hg
  obtain ⟨hb0, hb1⟩ := floorCoord_bounds p.b N hN hb
  have hru : 0 ≤ min (⌊((p.r : ℚ) / 255) * ((N : ℚ) - 1)⌋ + 1) ((N : ℤ) - 1) ∧
      min (⌊((p.r : ℚ) / 255) * ((N : ℚ) - 1)⌋ + 1) ((N : ℤ) - 1) ≤ (N : ℤ) - 1 :=
    ⟨le_min (by omega) (by omega), min_le_right _ _⟩
  have hgu : 0 ≤ min (⌊((p.g : ℚ) / 255) * ((N : ℚ) - 1)⌋ + 1) ((N : ℤ) - 1) ∧
      min (⌊((p.g : ℚ) / 255) * ((N : ℚ) - 1)⌋ + 1) ((N : ℤ) - 1) ≤ (N : ℤ) - 1 :=
    ⟨le_min (by omega) (by omega), min_le_right _ _⟩
  have hbu : 0 ≤ min (⌊((p.b : ℚ) / 255) * ((N : ℚ) - 1)⌋ + 1) ((N : ℤ) - 1) ∧
      min (⌊((p.b : ℚ) / 255) * ((N : ℚ) - 1)⌋ + 1) ((N : ℤ) - 1) ≤ (N : ℤ) - 1 :=
    ⟨le_min (by omega) (by omega), min_le_right _ _⟩
  simp only [kernelCorners, List.mem_cons, List.not_mem_nil, or_false] at hc
  rcases hc with rfl | rfl | rfl | rfl | rfl | rfl | rfl | rfl
  · exact cornerOK N hN _ _ _ ⟨hr0, hr1⟩ ⟨hg0, hg1⟩ ⟨hb0, hb1⟩
  · exact cornerOK N hN _ _ _ hru ⟨hg0, hg1⟩ ⟨hb0, hb1⟩
  · exact cornerOK N hN _ _ _ ⟨hr0, hr1⟩ hgu ⟨hb0, hb1⟩
  · exact cornerOK N hN _ _ _ ⟨hr0, hr1⟩ ⟨hg0, hg1⟩ hbu
  · exact cornerOK N hN _ _ _ hru ⟨hg0, hg1⟩ hbu
  · exact cornerOK N hN _ _ _ ⟨hr0, hr1⟩ hgu hbu
  · exact cornerOK N hN _ _ _ hru hgu ⟨hb0, hb1⟩
  · exact cornerOK N hN _ _ _ hru hgu hbu

/-- Witness for C3 at a concrete pixel with a channel exactly 255 and LUT
size 2, evaluating the corner list concretely. -/
theorem kernelCorners_in_bounds_witness :
    kernelCorners ⟨255, 0, 128⟩ 2 =
        [(1, 0, 0), (1, 0, 0), (1, 1, 0), (1, 0, 1),
         (1, 0, 1), (1, 1, 1), (1, 1, 0), (1, 1, 1)] ∧
      ∀ c ∈ kernelCorners ⟨255, 0, 128⟩ 2,
        (0 ≤ c.1 ∧ c.1 ≤ (2 : ℤ) - 1) ∧
          (0 ≤ c.2.1 ∧ c.2.1 ≤ (2 : ℤ) - 1) ∧
          (0 ≤ c.2.2 ∧ c.2.2 ≤ (2 : ℤ) - 1) ∧
          0 ≤ flatOffset 2 c ∧ flatOffset 2 c + 2 < 3 * (2 : ℤ) ^ 3 :=
  ⟨by norm_num [kernelCorners],
    kernelCorners_in_bounds ⟨255, 0, 128⟩ 2 (by decide) (by decide) (by decide)
      (by decide) (by decide)⟩

/-- Claim C4: a LUT file whose parsed float-entry count differs from
`3·N³` fails to load with the size-mismatch error (so pipeline construction,
which only proceeds on a successful `loadLUT`, is aborted), and every
successfully loaded cube contains exactly `3·N³` entries. -/
theorem loadLUT_size_invariant :
    (∀ lines n rest, findHeader lines = .ok (n, rest) →
        ((readData rest).length : ℤ) ≠ n * n * n * 3 →
        loadLUT lines = .error msgCount) ∧
      ∀ lines lut, loadLUT lines = .ok lut →
        (lut.data.length : ℤ) = lut.size * lut.size * lut.size * 3 := by
  constructor
  · intro lines n rest hfh hne
    unfold loadLUT
    rw [hfh]
    exact if_neg hne
  · intro lines lut hok
    unfold loadLUT at hok
    split at hok
    · exact absurd hok (by simp)
    · split at hok
      · next hc =>
        cases hok
        simpa using hc
      · exact absurd hok (by simp)

/-- Witness for C4: a file declaring size 2 with only 21 floats fails with
the size-mismatch error. -/
theorem loadLUT_size_invariant_witness :
    findHeader witBadFile = .ok (2, List.replicate 7 witDataLine) ∧
      ((readData (List.replicate 7 witDataLine)).length : ℤ) ≠ 2 * 2 * 2 * 3 ∧
      loadLUT witBadFile = .error msgCount :=
  ⟨rfl, by decide,
    loadLUT_size_invariant.1 witBadFile 2 (List.replicate 7 witDataLine) rfl (by decide)⟩

theorem findHeader_skip (l : RawLine) (rest : List RawLine)
    (h : headerSkips l = true) : findHeader (l :: rest) = findHeader rest := by
  unfold headerSkips at h
  by_cases hs : skipLine l = true
  · simp [findHeader, hs]
  · have hs' : skipLine l = false := by simpa using hs
    rcases hts : l.toks with _ | ⟨t, ts⟩
    · simp [findHeader, hs', hts]
    · have ht : ¬t.text = "LUT_3D_SIZE" := by
        simp [hs', hts] at h
        exact h
      simp [findHeader, hs', hts, ht]

theorem findHeader_append (pre rest : List RawLine)
    (h : ∀ l ∈ pre, headerSkips l = true) :
    findHeader (pre ++ rest) = findHeader rest := by
  induction pre with
  | nil => rfl
  | cons l pre ih =>
    rw [List.cons_append, findHeader_skip l _ (h l (by simp))]
    exact ih fun x hx => h x (by simp [hx])

theorem findHeader_validHeader (l : RawLine) (post : List RawLine) (n : ℤ)
    (h : validHeader l n) : findHeader (l :: post) = .ok (n, post) := by
  obtain ⟨hskip, hpos, t, st, ts, htoks, htext, hint⟩ := h
  simp [findHeader, hskip, htoks, htext, hint, not_le.mpr hpos]

/-- Claim C10: every non-blank, non-comment line before the `LUT_3D_SIZE`
header is consumed by the header search and discarded: loading does not fail
with the missing-size error when a valid header appears later, and the
entry-count check is evaluated only against the lines after the header. -/
theorem preheader_lines_discarded (pre post : List RawLine) (l : RawLine) (n : ℤ)
    (hpre : ∀ x ∈ pre, headerSkips x = true) (hl : validHeader l n) :
    loadLUT (pre ++ l :: post) ≠ .error msgNoSize ∧
      loadLUT (pre ++ l :: post) =
        (if ((readData post).length : ℤ) = n * n * n * 3 then .ok ⟨n, readData post⟩
         else .error msgCount) := by
  have hfh : findHeader (pre ++ l :: post) = .ok (n, post) := by
    rw [findHeader_append pre _ hpre]
    exact findHeader_validHeader l post n hl
  have hmain : loadLUT (pre ++ l :: post) =
      (if ((readData post).length : ℤ) = n * n * n * 3 then .ok ⟨n, readData post⟩
       else .error msgCount) := by
    unfold loadLUT
    rw [hfh]
  refine ⟨?_, hmain⟩
  rw [hmain]
  split
  · simp
  · simp [msgCount, msgNoSize]

/-- Witness for C10: two data lines precede the header and 8 follow it;
the file loads successfully with exactly the 24 post-header floats. -/
theorem preheader_lines_discarded_witness :
    (∀ x ∈ List.replicate 2 witDataLine, headerSkips x = true) ∧
      loadLUT witLateHeaderFile ≠ .error msgNoSize ∧
      loadLUT witLateHeaderFile = .ok ⟨2, readData (List.replicate 8 witDataLine)⟩ := by
  have hv : validHeader witHeaderLine 2 :=
    ⟨rfl, by norm_num, ⟨"LUT_3D_SIZE", none, none⟩, ⟨"2", some 2, some 2⟩, [],
      rfl, rfl, rfl⟩
  have h := preheader_lines_discarded (List.replicate 2 witDataLine)
    (List.replicate 8 witDataLine) witHeaderLine 2 (by decide) hv
  refine ⟨by decide, h.1, ?_⟩
  have h2 := h.2
  rw [if_pos (by decide)] at h2
  exact h2

theorem drainFrames_count_packetRead (rs : List RecvRes) :
    (drainFrames rs).count .packetRead = 0 := by
  induction rs with
  | nil => rfl
  | cons r rest ih =>
    cases r with
    | again => rfl
    | eofR => rfl
    | err => rfl
    | frame procFail =>
      by_cases hp : procFail = true
      · simp [drainFrames, hp]
      · have hp' : procFail = false := by simpa using hp
        simp [drainFrames, hp', List.count_cons, ih]

/-- Claim C5 counterexample: a failed `avcodec_send_packet` on the first
packet `break`s out of the whole read loop (lines 355-358); the second input
packet is never read, so the pipeline does not continue with the next packet. -/
theorem mainLoop_send_failure_aborts :
    mainLoop [⟨true, true, []⟩, ⟨true, false, []⟩] =
        [.packetRead, .sendErrorLogged] ∧
      (mainLoop [⟨true, true, []⟩, ⟨true, false, []⟩]).count .packetRead = 1 ∧
      ([(⟨true, true, []⟩ : InPacket), ⟨true, false, []⟩]).length = 2 := by
  decide

/-- Claim C5 amended: a failed receive/convert/encode step abandons the
current unit and the loop continues with the next packet, but a failed
`avcodec_send_packet` on a video packet logs and aborts the read loop: no
later packet is read. -/
theorem mainLoop_error_policy :
    (∀ pkts : List InPacket, (∀ p ∈ pkts, p.isVideo = true → p.sendFails = false) →
        (mainLoop pkts).count .packetRead = pkts.length) ∧
      ∀ (pre post : List InPacket) (p : InPacket), p.isVideo = true →
        p.sendFails = true → (∀ q ∈ pre, q.isVideo = true → q.sendFails = false) →
        (mainLoop (pre ++ p :: post)).count .packetRead = pre.length + 1 := by
  constructor
  · intro pkts h
    induction pkts with
    | nil => rfl
    | cons p rest ih =>
      have hrest := ih fun x hx => h x (by simp [hx])
      by_cases hv : p.isVideo = true
      · have hs : p.sendFails = false := h p (by simp) hv
        simp [mainLoop, hv, hs, List.count_cons, List.count_append,
          drainFrames_count_packetRead, hrest]
      · have hv' : p.isVideo = false := by simpa using hv
        simp [mainLoop, hv', List.count_cons, hrest]
  · intro pre post p hv hs hpre
    induction pre with
    | nil => simp [mainLoop, hv, hs]
    | cons q pre ih =>
      have hq := hpre q (by simp)
      have ihq := ih fun x hx => hpre x (by simp [hx])
      by_cases hqv : q.isVideo = true
      · have hqs : q.sendFails = false := hq hqv
        simp [mainLoop, hqv, hqs, List.count_cons, List.count_append,
          drainFrames_count_packetRead, ihq]
      · have hqv' : q.isVideo = false := by simpa using hqv
        simp [mainLoop, hqv', List.count_cons, ihq]

/-- Witness for the amended C5: per-frame failures and non-video packets do
not stop the loop; all three packets are read. -/
theorem mainLoop_error_policy_witness :
    (∀ p ∈ [(⟨true, false, [.frame true]⟩ : InPacket), ⟨false, true, []⟩,
        ⟨true, false, [.err]⟩], p.isVideo = true → p.sendFails = false) ∧
      (mainLoop [⟨true, false, [.frame true]⟩, ⟨false, true, []⟩,
        ⟨true, false, [.err]⟩]).count .packetRead = 3 :=
  ⟨by decide,
    mainLoop_error_policy.1
      [⟨true, false, [.frame true]⟩, ⟨false, true, []⟩, ⟨true, false, [.err]⟩]
      (by decide)⟩

/-- Claim C6 counterexample: the muxed packet's decode timestamp is not left
unset — it is the encoder's dts rescaled by `av_packet_rescale_ts` (line 446).
An encoder emitting dts 0 yields a muxed packet with dts 0, not unset. -/
theorem out_packet_dts_not_unset :
    encodeFrameStep 0 1 1 1 5 (fun _ => [⟨some 0, some 0, 0⟩]) =
        [⟨some 0, some 0, 5⟩] ∧
      ((⟨some 0, some 0, 5⟩ : OutPacket)).dts ≠ none := by
  constructor
  · simp [encodeFrameStep, prepOutPacket, avPacketRescaleTs, avRescaleQ]
    norm_num
  · simp

/-- Claim C6 amended: every frame's presentation timestamp is rescaled from
the input stream's timebase to the encoder's before the frame is sent, the
frame's decode timestamp is set unset, and every encoded packet's pts and dts
are rescaled from the encoder's timebase to the output stream's before muxing
(two separate rescales); the muxed packet's dts is the encoder's rescaled dts,
not unset. -/
theorem timestamp_rescale_policy (decPts : ℤ) (sTB eTB oTB : ℚ) (idx : ℕ)
    (encoder : EncFrame → List OutPacket) :
    (prepEncFrame decPts sTB eTB).pts = avRescaleQ decPts sTB eTB ∧
      (prepEncFrame decPts sTB eTB).pkt_dts = none ∧
      encodeFrameStep decPts sTB eTB oTB idx encoder =
        (encoder (prepEncFrame decPts sTB eTB)).map
          (fun p => ⟨p.pts.map (fun t => avRescaleQ t eTB oTB),
            p.dts.map (fun t => avRescaleQ t eTB oTB), idx⟩) :=
  ⟨rfl, rfl, rfl⟩

/-- Claim C7 counterexample: the early-error branch at line 197 (no video
stream) returns after the device LUT and the input context were acquired,
releasing neither — resource release is skipped on this exit path. -/
theorem teardown_skipped_on_early_exit :
    Ev.acq .dLut ∈ mainTrace (some 5) ∧ Ev.acq .inFmt ∈ mainTrace (some 5) ∧
      Ev.rel .dLut ∉ mainTrace (some 5) ∧ Ev.rel .inFmt ∉ mainTrace (some 5) ∧
      (mainTrace (some 5)).getLast? = some .exitFail := by
  decide

/-- Claim C7 amended: on the normal completion path every acquired resource is
released exactly once, in the fixed cleanup order of lines 603-671 — which is
not the strict reverse of acquisition order — while early-error exit paths
terminate the process without releasing already-acquired resources. -/
theorem teardown_normal_path :
    acqsOf (mainTrace none) = acqOrder ∧ relsOf (mainTrace none) = relOrder ∧
      (∀ r ∈ acqOrder, r ∈ relOrder) ∧ (∀ r ∈ relOrder, r ∈ acqOrder) ∧
      acqOrder.Nodup ∧ relOrder.Nodup ∧ relOrder ≠ acqOrder.reverse ∧
      (mainTrace none).getLast? = some .exitOk := by
  decide

theorem coordLe (v N : ℕ) (hN : 0 < N) (hv : v ≤ 255) :
    ((v : ℚ) / 255) * ((N : ℚ) - 1) ≤ (((N : ℤ) - 1 : ℤ) : ℚ) := by
  have hN1 : (1 : ℚ) ≤ (N : ℚ) := by exact_mod_cast hN
  have hd1 : (v : ℚ) / 255 ≤ 1 := by
    rw [div_le_one (show (0 : ℚ) < 255 by norm_num)]
    exact_mod_cast hv
  have h2 : (0 : ℚ) ≤ (v : ℚ) / 255 := by positivity
  push_cast
  nlinarith

theorem floorBlend (f : ℚ) (n1 : ℤ) (h1 : f ≤ (n1 : ℚ)) :
    (⌊f⌋ : ℚ) + (f - ⌊f⌋) * (((min (⌊f⌋ + 1) n1 : ℤ) : ℚ) - (⌊f⌋ : ℚ)) = f := by
  rcases le_or_lt (⌊f⌋ + 1) n1 with h | h
  · rw [min_eq_left h]
    push_cast
    ring
  · have h3 : ⌊f⌋ ≤ n1 := by
      have h4 := Int.floor_le_floor h1
      rwa [Int.floor_intCast] at h4
    have h4 : ⌊f⌋ = n1 := le_antisymm h3 (by omega)
    have h5 : f = (n1 : ℚ) := le_antisymm h1 (by rw [← h4]; exact Int.floor_le f)
    rw [min_eq_right (by omega), h4, h5]
    ring

theorem cubeDecode (N a b c : ℕ) (hb : b < N) (hc : c < N) :
    ((a * N + b) * N + c) / (N * N) = a ∧
      ((a * N + b) * N + c) / N % N = b ∧ ((a * N + b) * N + c) % N = c := by
  have hN : 0 < N := lt_of_le_of_lt (Nat.zero_le b) hb
  have key : (a * N + b) * N + c = N * N * a + (b * N + c) := by ring
  have hbc : b * N + c < N * N := by
    calc b * N + c < b * N + N := by omega
      _ = (b + 1) * N := by ring
      _ ≤ N * N := Nat.mul_le_mul_right N hb
  refine ⟨?_, ?_, ?_⟩
  · rw [key, Nat.mul_add_div (by positivity), Nat.div_eq_of_lt hbc, add_zero]
  · have key2 : (a * N + b) * N + c = N * (a * N + b) + c := by ring
    rw [key2, Nat.mul_add_div hN, Nat.div_eq_of_lt hc, add_zero]
    have key3 : a * N + b = N * a + b := by ring
    rw [key3, Nat.mul_add_mod, Nat.mod_eq_of_lt hb]
  · have key2 : (a * N + b) * N + c = N * (a * N + b) + c := by ring
    rw [key2, Nat.mul_add_mod, Nat.mod_eq_of_lt hc]

theorem identityLUT_getD (N t : ℕ) (ht : t < 3 * N ^ 3) :
    (identityLUT N).getD t 0 = idEntry N t := by
  unfold identityLUT
  rw [List.getD_eq_getElem?_getD, List.getElem?_map]
  simp [List.getElem?_range, ht]

theorem flatNat_lt (N a b c : ℕ) (ha : a < N) (hb : b < N) (hc : c < N) :
    ((a * N + b) * N + c) * 3 + 2 < 3 * N ^ 3 := by
  have h1 : a * N + b < N * N := by
    calc a * N + b < a * N + N := by omega
      _ = (a + 1) * N := by ring
      _ ≤ N * N := Nat.mul_le_mul_right N ha
  have h2 : (a * N + b) * N + c < N * N * N := by
    calc (a * N + b) * N + c < (a * N + b) * N + N := by omega
      _ = ((a * N + b) + 1) * N := by ring
      _ ≤ N * N * N := Nat.mul_le_mul_right N h1
  have h3 : N ^ 3 = N * N * N := by ring
  omega

theorem getLut_identityLUT (N : ℕ) (hN : 2 ≤ N) (i j k : ℤ)
    (hi0 : 0 ≤ i) (hi1 : i ≤ (N : ℤ) - 1) (hj0 : 0 ≤ j) (hj1 : j ≤ (N : ℤ) - 1)
    (hk0 : 0 ≤ k) (hk1 : k ≤ (N : ℤ) - 1) :
    getLut i j k (identityLUT N) N =
      ⟨(i : ℚ) / ((N : ℚ) - 1), (j : ℚ) / ((N : ℚ) - 1), (k : ℚ) / ((N : ℚ) - 1)⟩ := by
  obtain ⟨a, rfl⟩ : ∃ a : ℕ, i = (a : ℤ) := ⟨i.toNat, (Int.toNat_of_nonneg hi0).symm⟩
  obtain ⟨b, rfl⟩ : ∃ b : ℕ, j = (b : ℤ) := ⟨j.toNat, (Int.toNat_of_nonneg hj0).symm⟩
  obtain ⟨c, rfl⟩ : ∃ c : ℕ, k = (c : ℤ) := ⟨k.toNat, (Int.toNat_of_nonneg hk0).symm⟩
  have ha : a < N := by omega
  have hb : b < N := by omega
  have hc : c < N := by omega
  have hflat := flatNat_lt N a b c ha hb hc
  have hidx : (((a : ℤ) * (N : ℤ) * (N : ℤ)) + ((b : ℤ) * (N : ℤ)) + (c : ℤ)) * 3 =
      ((((a * N + b) * N + c) * 3 : ℕ) : ℤ) := by
    push_cast
    ring
  simp only [getLut]
  rw [hidx]
  rw [show ((((a * N + b) * N + c) * 3 : ℕ) : ℤ) + 1 =
      ((((a * N + b) * N + c) * 3 + 1 : ℕ) : ℤ) by push_cast; ring]
  rw [show ((((a * N + b) * N + c) * 3 : ℕ) : ℤ) + 2 =
      ((((a * N + b) * N + c) * 3 + 2 : ℕ) : ℤ) by push_cast; ring]
  rw [Int.toNat_natCast, Int.toNat_natCast, Int.toNat_natCast]
  rw [identityLUT_getD N (((a * N + b) * N + c) * 3) (by omega),
    identityLUT_getD N (((a * N + b) * N + c) * 3 + 1) (by omega),
    identityLUT_getD N (((a * N + b) * N + c) * 3 + 2) (by omega)]
  have hd := cubeDecode N a b c hb hc
  have e0 : ((a * N + b) * N + c) * 3 / 3 = (a * N + b) * N + c := by omega
  have e0m : ((a * N + b) * N + c) * 3 % 3 = 0 := by omega
  have e1 : (((a * N + b) * N + c) * 3 + 1) / 3 = (a * N + b) * N + c := by omega
  have e1m : (((a * N + b) * N + c) * 3 + 1) % 3 = 1 := by omega
  have e2 : (((a * N + b) * N + c) * 3 + 2) / 3 = (a * N + b) * N + c := by omega
  have e2m : (((a * N + b) * N + c) * 3 + 2) % 3 = 2 := by omega
  simp only [idEntry, e0, e0m, e1, e1m, e2, e2m, hd.1, hd.2.1, hd.2.2]
  norm_num [Q3.mk.injEq]

theorem trilerp_planes (R0 R1 G0 G1 B0 B1 dr dg db : ℚ) :
    lerp (lerp (lerp ⟨R0, G0, B0⟩ ⟨R1, G0, B0⟩ dr) (lerp ⟨R0, G1, B0⟩ ⟨R1, G1, B0⟩ dr) dg)
        (lerp (lerp ⟨R0, G0, B1⟩ ⟨R1, G0, B1⟩ dr) (lerp ⟨R0, G1, B1⟩ ⟨R1, G1, B1⟩ dr) dg) db =
      ⟨R0 + dr * (R1 - R0), G0 + dg * (G1 - G0), B0 + db * (B1 - B0)⟩ := by
  simp only [lerp, Q3.mk.injEq]
  refine ⟨by ring, by ring, by ring⟩

theorem clampByte_round_id (v : ℕ) (hv : v ≤ 255) : clampByte ((v : ℚ) + 1/2) = v := by
  unfold clampByte
  rw [max_eq_left (by positivity)]
  rcases Nat.lt_or_ge v 255 with h | h
  · have h254 : (v : ℚ) ≤ 254 := by exact_mod_cast Nat.le_of_lt_succ h
    rw [min_eq_left (by linarith)]
    rw [show (v : ℚ) + 1/2 = ((v : ℤ) : ℚ) + 1/2 by push_cast; ring, Int.floor_int_add]
    norm_num
  · have hv255 : v = 255 := le_antisymm hv h
    subst hv255
    rw [min_eq_right (by norm_num)]
    norm_num
    decide

/-- Claim C8: for the identity LUT of any size N ≥ 2, transforming any
non-white pixel yields exactly the same pixel (in particular within ±1 unit
of 8-bit rounding error), for all channel values in [0,255]. -/
theorem identity_lut_is_identity (N : ℕ) (p : Pixel) (hN : 2 ≤ N)
    (hr : p.r ≤ 255) (hg : p.g ≤ 255) (hb : p.b ≤ 255)
    (hw : ¬(p.r = 255 ∧ p.g = 255 ∧ p.b = 255)) :
    applyLUTPixel p (identityLUT N) N = p := by
  obtain ⟨r, g, b⟩ := p
  have hN0 : 0 < N := by omega
  have hN2 : (2 : ℚ) ≤ (N : ℚ) := by exact_mod_cast hN
  have hNQ : ((N : ℚ) - 1) ≠ 0 := ne_of_gt (by linarith)
  have h255 : (255 : ℚ) ≠ 0 := by norm_num
  have hc : kernelInterp ⟨r, g, b⟩ (identityLUT N) N =
      ⟨(r : ℚ) / 255, (g : ℚ) / 255, (b : ℚ) / 255⟩ := by
    obtain ⟨hfr0, hfr1⟩ := floorCoord_bounds r N hN0 hr
    obtain ⟨hfg0, hfg1⟩ := floorCoord_bounds g N hN0 hg
    obtain ⟨hfb0, hfb1⟩ := floorCoord_bounds b N hN0 hb
    have hfrle := coordLe r N hN0 hr
    have hfgle := coordLe g N hN0 hg
    have hfble := coordLe b N hN0 hb
    simp only [kernelInterp]
    set fr : ℚ := (r : ℚ) / 255 * ((N : ℚ) - 1) with hfr
    set fg : ℚ := (g : ℚ) / 255 * ((N : ℚ) - 1) with hfg
    set fb : ℚ := (b : ℚ) / 255 * ((N : ℚ) - 1) with hfb
    set r0 : ℤ := ⌊fr⌋ with hr0d
    set g0 : ℤ := ⌊fg⌋ with hg0d
    set b0 : ℤ := ⌊fb⌋ with hb0d
    set r1 : ℤ := min (r0 + 1) ((N : ℤ) - 1) with hr1d
    set g1 : ℤ := min (g0 + 1) ((N : ℤ) - 1) with hg1d
    set b1 : ℤ := min (b0 + 1) ((N : ℤ) - 1) with hb1d
    have hru0 : (0 : ℤ) ≤ r1 := le_min (by omega) (by omega)
    have hru1 : r1 ≤ (N : ℤ) - 1 := min_le_right _ _
    have hgu0 : (0 : ℤ) ≤ g1 := le_min (by omega) (by omega)
    have hgu1 : g1 ≤ (N : ℤ) - 1 := min_le_right _ _
    have hbu0 : (0 : ℤ) ≤ b1 := le_min (by omega) (by omega)
    have hbu1 : b1 ≤ (N : ℤ) - 1 := min_le_right _ _
    rw [getLut_identityLUT N hN r0 g0 b0 hfr0 hfr1 hfg0 hfg1 hfb0 hfb1,
      getLut_identityLUT N hN r1 g0 b0 hru0 hru1 hfg0 hfg1 hfb0 hfb1,
      getLut_identityLUT N hN r0 g1 b0 hfr0 hfr1 hgu0 hgu1 hfb0 hfb1,
      getLut_identityLUT N hN r0 g0 b1 hfr0 hfr1 hfg0 hfg1 hbu0 hbu1,
      getLut_identityLUT N hN r1 g0 b1 hru0 hru1 hfg0 hfg1 hbu0 hbu1,
      getLut_identityLUT N hN r0 g1 b1 hfr0 hfr1 hgu0 hgu1 hbu0 hbu1,
      getLut_identityLUT N hN r1 g1 b0 hru0 hru1 hgu0 hgu1 hfb0 hfb1,
      getLut_identityLUT N hN r1 g1 b1 hru0 hru1 hgu0 hgu1 hbu0 hbu1,
      trilerp_planes]
    have keyR : (r0 : ℚ) + (fr - r0) * ((r1 : ℚ) - (r0 : ℚ)) = fr :=
      floorBlend fr ((N : ℤ) - 1) hfrle
    have keyG : (g0 : ℚ) + (fg - g0) * ((g1 : ℚ) - (g0 : ℚ)) = fg :=
      floorBlend fg ((N : ℤ) - 1) hfgle
    have keyB : (b0 : ℚ) + (fb - b0) * ((b1 : ℚ) - (b0 : ℚ)) = fb :=
      floorBlend fb ((N : ℤ) - 1) hfble
    simp only [Q3.mk.injEq]
    refine ⟨?_, ?_, ?_⟩
    · rw [show (r0 : ℚ) / ((N : ℚ) - 1) +
          (fr - (r0 : ℚ)) * ((r1 : ℚ) / ((N : ℚ) - 1) - (r0 : ℚ) / ((N : ℚ) - 1)) =
          ((r0 : ℚ) + (fr - (r0 : ℚ)) * ((r1 : ℚ) - (r0 : ℚ))) / ((N : ℚ) - 1) by ring,
        keyR, hfr]
      exact mul_div_cancel_right₀ _ hNQ
    · rw [show (g0 : ℚ) / ((N : ℚ) - 1) +
          (fg - (g0 : ℚ)) * ((g1 : ℚ) / ((N : ℚ) - 1) - (g0 : ℚ) / ((N : ℚ) - 1)) =
          ((g0 : ℚ) + (fg - (g0 : ℚ)) * ((g1 : ℚ) - (g0 : ℚ))) / ((N : ℚ) - 1) by ring,
        keyG, hfg]
      exact mul_div_cancel_right₀ _ hNQ
    · rw [show (b0 : ℚ) / ((N : ℚ) - 1) +
          (fb - (b0 : ℚ)) * ((b1 : ℚ) / ((N : ℚ) - 1) - (b0 : ℚ) / ((N : ℚ) - 1)) =
          ((b0 : ℚ) + (fb - (b0 : ℚ)) * ((b1 : ℚ) - (b0 : ℚ))) / ((N : ℚ) - 1) by ring,
        keyB, hfb]
      exact mul_div_cancel_right₀ _ hNQ
  unfold applyLUTPixel
  rw [if_neg hw]
  simp only [hc]
  rw [div_mul_cancel₀ ((r : ℚ)) h255, div_mul_cancel₀ ((g : ℚ)) h255,
    div_mul_cancel₀ ((b : ℚ)) h255]
  rw [clampByte_round_id r hr, clampByte_round_id g hg, clampByte_round_id b hb]

/-- Witness for C8 at size 2 and pixel (0, 17, 255). -/
theorem identity_lut_is_identity_witness :
    ((2 : ℕ) ≤ 2 ∧ ¬((0 : ℕ) = 255 ∧ (17 : ℕ) = 255 ∧ (255 : ℕ) = 255)) ∧
      applyLUTPixel ⟨0, 17, 255⟩ (identityLUT 2) 2 = ⟨0, 17, 255⟩ :=
  ⟨⟨by decide, by decide⟩,
    identity_lut_is_identity 2 ⟨0, 17, 255⟩ (by decide) (by decide) (by decide)
      (by decide) (by decide)⟩

theorem threadWrites_output_only (input : ℕ → ℕ) (w h : ℕ) (lut : List ℚ)
    (N x y : ℕ) : ∀ wr ∈ threadWrites input w h lut N x y, wr.buf = .outputB := by
  intro wr hwr
  unfold threadWrites at hwr
  split at hwr
  · simp at hwr
  · simp only [List.mem_cons, List.not_mem_nil, or_false] at hwr
    rcases hwr with rfl | rfl | rfl <;> rfl

theorem foldl_applyWrite_preserves (ws : List KWrite) :
    ∀ m : DevMem, (∀ wr ∈ ws, wr.buf = .outputB) →
      (ws.foldl applyWrite m).input = m.input ∧ (ws.foldl applyWrite m).lut = m.lut := by
  induction ws with
  | nil => exact fun m _ => ⟨rfl, rfl⟩
  | cons wr ws ih =>
    intro m h
    have hwr : wr.buf = .outputB := h wr (by simp)
    have happ : (applyWrite m wr).input = m.input ∧ (applyWrite m wr).lut = m.lut := by
      unfold applyWrite
      rw [hwr]
      exact ⟨rfl, rfl⟩
    obtain ⟨h1, h2⟩ := ih (applyWrite m wr) fun x hx => h x (by simp [hx])
    rw [List.foldl_cons]
    exact ⟨h1.trans happ.1, h2.trans happ.2⟩

/-- Claim C9: one transform call modifies only the output buffer: no store of
any kernel thread targets the input buffer or the LUT cube, threads outside
`width × height` store nothing, and the input buffer and LUT cube are returned
unmodified. -/
theorem runKernel_preserves_input_and_lut (m : DevMem) (width height lutSize : ℕ) :
    (runKernel m width height lutSize).input = m.input ∧
      (runKernel m width height lutSize).lut = m.lut ∧
      ∀ x y, width ≤ x ∨ height ≤ y →
        threadWrites m.input width height m.lut lutSize x y = [] := by
  have hall : ∀ wr ∈ (gridThreads width height).flatMap
      (fun xy => threadWrites m.input width height m.lut lutSize xy.1 xy.2),
      wr.buf = .outputB := by
    intro wr hwr
    rw [List.mem_flatMap] at hwr
    obtain ⟨xy, _, hw⟩ := hwr
    exact threadWrites_output_only m.input width height m.lut lutSize xy.1 xy.2 wr hw
  obtain ⟨h1, h2⟩ := foldl_applyWrite_preserves _ m hall
  refine ⟨h1, h2, fun x y hxy => ?_⟩
  unfold threadWrites
  rw [if_pos hxy]

/-- Witness for C9 at a concrete memory, frame size, and out-of-range thread. -/
theorem runKernel_preserves_witness :
    (runKernel ⟨fun _ => 0, fun _ => 0, []⟩ 2 2 2).input = (fun _ => 0) ∧
      threadWrites (fun _ => 0) 2 2 [] 2 5 0 = [] :=
  ⟨(runKernel_preserves_input_and_lut ⟨fun _ => 0, fun _ => 0, []⟩ 2 2 2).1,
    (runKernel_preserves_input_and_lut ⟨fun _ => 0, fun _ => 0, []⟩ 2 2 2).2.2 5 0
      (Or.inl (by norm_num))⟩

end LutPipeline
